import Mathlib

/-!
Verification of the datastore core (`pbs-datastore/src/datastore.rs`) against its
natural-language specification. Each section shallowly embeds the slice of the
source that one claim is about: pure control flow becomes Lean functions,
filesystem and lock state becomes explicit state passing, fallible collaborators
become `Except`/`Option` or boolean outcome parameters. Definitions follow the
Rust source; collaborators whose source is not part of this development
(ChunkStore internals, Authid) are modelled from the specification and marked so
in their doc comments.
-/

namespace Spec2Proof

/-- A chunk digest: an opaque 32-byte value. Only equality matters here, so it is
modelled as a list of byte values. -/
abbrev Digest := List Nat

namespace GCRun

/-- Events of one successful `DataStore::garbage_collection` run, in source order.
`tryLockGCMutex` is the `gc_mutex.try_lock()` in the `if let` head;
`acquireExclusiveLock` is `let _exclusive_lock = self.inner.chunk_store.try_exclusive_lock()?`;
`phase1Mark` is `self.mark_used_chunks(..)`; `phase2Sweep` is
`chunk_store.sweep_unused_chunks(..)`; `writeStatusFile` is the best-effort
`replace_file` of `.gc-status`; `publishLastGCStatus` is the assignment to
`last_gc_status`. -/
inductive GCEvent where
  | tryLockGCMutex
  | acquireExclusiveLock
  | phase1Mark
  | phase2Sweep
  | writeStatusFile
  | publishLastGCStatus
  | releaseExclusiveLock
  | releaseGCMutex
deriving DecidableEq

/-- The event order of a successful `garbage_collection` run, read off the source.
The exclusive chunk-store lock guard is bound to the named local
`_exclusive_lock`, so Rust keeps it alive until the end of the enclosing
`if let` block: it is dropped after phase 1, phase 2 and the status writes,
and before the `if let` scrutinee (the GC mutex guard temporary) is dropped. -/
def gcEventTrace : List GCEvent :=
  [GCEvent.tryLockGCMutex, GCEvent.acquireExclusiveLock, GCEvent.phase1Mark,
   GCEvent.phase2Sweep, GCEvent.writeStatusFile, GCEvent.publishLastGCStatus,
   GCEvent.releaseExclusiveLock, GCEvent.releaseGCMutex]

/-- Position of an event in the run trace. -/
def eventPos (e : GCEvent) : Nat := gcEventTrace.indexOf e

end GCRun

namespace GCLock

/-- State of the per-datastore `gc_mutex`: whether some GC run currently holds it. -/
structure GCMutex where
  locked : Bool
deriving DecidableEq

/-- Model of `Mutex::try_lock`: non-blocking, fails exactly when the mutex is
already held, otherwise yields the locked state. -/
def tryLock (m : GCMutex) : Option GCMutex :=
  if m.locked then none else some { locked := true }

/-- Embeds `DataStore::garbage_collection_running`:
`!matches!(self.inner.gc_mutex.try_lock(), Ok(_))`. -/
def garbage_collection_running (m : GCMutex) : Bool :=
  (tryLock m).isNone

/-- Embeds the entry of `DataStore::garbage_collection`: the non-blocking
`try_lock` on the GC mutex. On contention it fails immediately with the
error message of the source; on success the run proceeds holding the mutex. -/
def garbage_collection_start (m : GCMutex) : Except String GCMutex :=
  match tryLock m with
  | some held => Except.ok held
  | none => Except.error "Start GC failed - (already running/locked)"

/-- Embeds the end of a GC run: the mutex guard is dropped, releasing the lock. -/
def garbage_collection_finish (_m : GCMutex) : GCMutex :=
  { locked := false }

end GCLock

namespace GCStatus

/-- Outcomes of the three fallible steps in the status-persisting tail of
`garbage_collection`: `serde_json::to_string(&gc_status)` (consumed with
`if let Ok(..)`), `pbs_config::backup_user()` (consumed with `?`), and
`replace_file` (consumed with `let _ =`). -/
structure PersistEnv where
  serializeOk : Bool
  backupUserOk : Bool
  writeOk : Bool
deriving DecidableEq

/-- Observable outcome of the tail of a GC run: whether `.gc-status` ended up
written, and whether the status was published to `last_gc_status`. -/
structure PersistOutcome where
  statusFileWritten : Bool
  publishedLastGC : Bool
deriving DecidableEq

/-- Embeds the tail of `DataStore::garbage_collection` after mark and sweep
succeeded: serialization failure skips the whole write block (`if let Ok`),
a `replace_file` failure is explicitly discarded (`let _ =`), but the
`pbs_config::backup_user()?` lookup propagates its error out of
`garbage_collection`, skipping the `last_gc_status` publication. -/
def gc_finalize (env : PersistEnv) : Except String PersistOutcome :=
  if env.serializeOk then
    if env.backupUserOk then
      Except.ok { statusFileWritten := env.writeOk, publishedLastGC := true }
    else
      Except.error "unable to resolve backup user"
  else
    Except.ok { statusFileWritten := false, publishedLastGC := true }

end GCStatus

namespace OwnerCheck

/-- Modelled from the spec: `Authid` is an opaque backup identity with an
`is_token()` predicate and a `user()` projection; an API token is a user plus a
token name, a plain user has no token name. Users and token names are opaque,
so both are modelled as naturals. -/
structure Authid where
  user : Nat
  tokenname : Option Nat
deriving DecidableEq

/-- Modelled from the spec: `Authid::is_token`. -/
def is_token (a : Authid) : Bool := a.tokenname.isSome

/-- Modelled from the spec: `Authid::from(userid)`, the plain (token-free)
identity of a user. This is what `Authid::from(owner.user().clone())` builds. -/
def from_user (u : Nat) : Authid := { user := u, tokenname := none }

/-- Embeds the free function `check_backup_owner`: the check passes iff
`owner == auth_id`, or `owner` is a token and the plain identity of the owning
token user equals `auth_id`. -/
def check_backup_owner (owner auth_id : Authid) : Except String Unit :=
  let correct_owner :=
    owner == auth_id || (is_token owner && from_user owner.user == auth_id)
  if correct_owner then Except.ok () else Except.error "backup owner check failed"

/-- Embeds `DataStore::owns_backup`: read the owner from the owner file of the group
(an absent file is an error) and report whether `check_backup_owner` passes. -/
def owns_backup (ownerFile : Option Authid) (auth_id : Authid) : Except String Bool :=
  match ownerFile with
  | none => Except.error "unable to open owner file"
  | some owner =>
    Except.ok (match check_backup_owner owner auth_id with
      | Except.ok _ => true
      | Except.error _ => false)

end OwnerCheck

namespace Cache

/-- One entry of the process-wide `DATASTORE_MAP`: the generation and time
recorded when the `DataStoreImpl` was opened, plus an identity for the shared
inner state (distinct openings get distinct identities, modelling `Arc`
identity). -/
structure CacheEntry where
  lastGeneration : Nat
  lastUpdate : Int
  storeId : Nat
deriving DecidableEq

/-- Embeds the cache consultation of `DataStore::lookup_datastore` (after the
config, maintenance and operation-counter steps): a cached instance is reused
iff its recorded generation equals the current one and `now` is strictly below
`last_update + 60`; otherwise the store is reopened (a fresh inner identity)
and the map entry replaced. Returns the inner identity of the handle and the map
entry after the call. -/
def lookup_datastore (cache : Option CacheEntry) (generation : Nat) (now : Int)
    (freshId : Nat) : Nat × CacheEntry :=
  match cache with
  | some entry =>
    if entry.lastGeneration == generation && decide (now < entry.lastUpdate + 60) then
      (entry.storeId, entry)
    else
      (freshId, { lastGeneration := generation, lastUpdate := now, storeId := freshId })
  | none =>
    (freshId, { lastGeneration := generation, lastUpdate := now, storeId := freshId })

end Cache

namespace Mark

/-- A call into the ChunkStore made by the phase-1 mark loop: a conditional
touch of the chunk at a digest, or a conditional touch of the sidecar path
`<digest>.<n>.bad`. Each carries the `fail_if_missing` flag it was made with. -/
inductive MarkCall where
  | touchChunk (d : Digest) (failIfMissing : Bool)
  | touchBad (d : Digest) (n : Nat) (failIfMissing : Bool)
deriving DecidableEq

/-- Modelled from the spec: `ChunkStore::cond_touch_chunk` updates the
atime of the chunk and returns false if the chunk is absent and `fail_if_missing` is false;
it fails otherwise. `present` is the set of digests whose chunk file exists. -/
def cond_touch_chunk (present : Digest → Bool) (d : Digest) (failIfMissing : Bool) :
    Except String Bool :=
  if present d then Except.ok true
  else if failIfMissing then Except.error "update atime failed for chunk"
  else Except.ok false

/-- Modelled from the spec: `ChunkStore::cond_touch_path`, the generalized touch
used on the `.bad` sidecar paths, with the same absent/fail semantics.
`badPresent d n` tells whether the sidecar `<digest d>.<n>.bad` exists. -/
def cond_touch_path (badPresent : Digest → Nat → Bool) (d : Digest) (n : Nat)
    (failIfMissing : Bool) : Except String Bool :=
  if badPresent d n then Except.ok true
  else if failIfMissing then Except.error "update atime failed for path"
  else Except.ok false

/-- Embeds the `for i in 0..=9` loop of `index_mark_used_chunks`: touch the
sidecar `<digest>.<i>.bad` for each `i` of the given list by
`cond_touch_path(.., false)`, each call behind a `?`. Returns the calls made. -/
def touchBadSidecars (badPresent : Digest → Nat → Bool) (d : Digest) :
    List Nat → Except String (List MarkCall)
  | [] => Except.ok []
  | n :: rest => do
    let _ ← cond_touch_path badPresent d n false
    let calls ← touchBadSidecars badPresent d rest
    pure (MarkCall.touchBad d n false :: calls)

/-- Embeds the position loop of `DataStore::index_mark_used_chunks`: for every
index position, call `cond_touch_chunk(digest, false)` behind a `?`; when it
returns false, record a warning for the digest and touch the ten `.bad`
sidecars, then continue with the next position. The index is its list of
per-position digests; the worker abort polls are modelled as non-aborting.
Returns the ChunkStore calls made and the warned digests, in order. -/
def index_mark_used_chunks (present : Digest → Bool)
    (badPresent : Digest → Nat → Bool) :
    List Digest → Except String (List MarkCall × List Digest)
  | [] => Except.ok ([], [])
  | d :: rest => do
    let touched ← cond_touch_chunk present d false
    if touched then
      let (calls, warns) ← index_mark_used_chunks present badPresent rest
      pure (MarkCall.touchChunk d false :: calls, warns)
    else
      let badCalls ← touchBadSidecars badPresent d (List.range 10)
      let (calls, warns) ← index_mark_used_chunks present badPresent rest
      pure (MarkCall.touchChunk d false :: badCalls ++ calls, d :: warns)

end Mark

namespace Owner

/-- Modelled from the spec: validity of an identity string as accepted by the
`Authid` parser. An authid is a non-empty single-line token: it contains no
whitespace at all (in particular no newline). -/
def authidValid (cs : List Char) : Bool :=
  !cs.isEmpty && cs.all fun c => !c.isWhitespace

/-- Modelled from the spec: an opaque backup identity; `chars` is its display
form, the exact text `set_owner` writes before the newline. -/
structure Authid where
  chars : List Char
deriving DecidableEq

/-- Modelled from the spec: parsing an identity string back from text, as done
by the `.parse()` in `get_owner`. -/
def authid_parse (cs : List Char) : Option Authid :=
  if authidValid cs then some { chars := cs } else none

/-- Modelled from proxmox-sys: `file_read_firstline` returns the first line of
the file, including its newline terminator when one is present. -/
def firstLine (cs : List Char) : List Char :=
  let pre := cs.takeWhile fun c => c != '\n'
  if pre.length = cs.length then pre else pre ++ ['\n']

/-- Model of Rust `str::trim_end`: drop trailing whitespace. -/
def trimEnd (cs : List Char) : List Char :=
  (cs.reverse.dropWhile Char.isWhitespace).reverse

/-- Embeds `DataStore::set_owner` acting on the `owner` file of the group: with
`force` the file is created or truncated and rewritten; without `force` the
`create_new` open fails whenever the file already exists, leaving it unchanged.
On success `writeln!` stores the identity followed by a newline. Returns the
result of the call together with the owner file afterwards. -/
def set_owner (ownerFile : Option (List Char)) (auth_id : Authid) (force : Bool) :
    Except String Unit × Option (List Char) :=
  if force then
    (Except.ok (), some (auth_id.chars ++ ['\n']))
  else
    match ownerFile with
    | some content => (Except.error "unable to create owner file", some content)
    | none => (Except.ok (), some (auth_id.chars ++ ['\n']))

/-- Embeds `DataStore::get_owner`: read the first line of the `owner` file,
strip trailing whitespace (the trailing newline), and parse the result. -/
def get_owner (ownerFile : Option (List Char)) : Except String Authid :=
  match ownerFile with
  | none => Except.error "unable to open owner file"
  | some content =>
    match authid_parse (trimEnd (firstLine content)) with
    | some a => Except.ok a
    | none => Except.error "unable to parse owner"

end Owner

namespace ChunkOrdering

/-- The `ChunkOrder` tuning option from pbs-api-types: sort restore reads by
inode, or keep the index order. -/
inductive ChunkOrder where
  | inode
  | none
deriving DecidableEq

/-- Largest `u64` value, the sort key the source gives to chunks whose stat
failed so that they move to the end of the list. -/
def u64MAX : Nat := 2 ^ 64 - 1

/-- Sort key of one non-skipped position, following the `let ino = match ..`
in the source: under `Inode` the inode number of the chunk file, or `u64::MAX` when
`stat_chunk` fails; under `None` the constant 0. `stat` models `stat_chunk`
returning the inode of the chunk file (`Option.none` is a failed stat). -/
def inoKey (order : ChunkOrder) (stat : Digest → Option Nat) (d : Digest) : Nat :=
  match order with
  | ChunkOrder.inode =>
    match stat d with
    | Option.none => u64MAX
    | some ino => ino
  | ChunkOrder.none => 0

/-- Embeds `DataStore::get_chunks_in_order`: iterate index positions, drop those
whose digest satisfies `skip_chunk`, pair each kept position with its sort key,
then sort by key under `ChunkOrder::Inode` and keep the built order under
`ChunkOrder::None`. The abort callback is modelled as non-aborting; `index` is
the per-position digest list. -/
def get_chunks_in_order (order : ChunkOrder) (stat : Digest → Option Nat)
    (index : List Digest) (skip_chunk : Digest → Bool) : List (Nat × Nat) :=
  let chunk_list := index.enum.filterMap fun pd =>
    if skip_chunk pd.2 then Option.none else some (pd.1, inoKey order stat pd.2)
  match order with
  | ChunkOrder.inode => chunk_list.mergeSort fun a b => decide (a.2 ≤ b.2)
  | ChunkOrder.none => chunk_list

/-- Concrete stat function for the C8 witness: stat fails for the chunk with
digest `[9]`, every other chunk file has inode 7. -/
def statW (d : Digest) : Option Nat :=
  if d == [9] then Option.none else some 7

/-- Concrete index for the C8 witness. -/
def indexW : List Digest := [[0], [1], [9], [2]]

/-- Concrete skip predicate for the C8 witness: skip the digest `[2]`. -/
def skipW (d : Digest) : Bool := d == [2]

end ChunkOrdering

namespace Manifest

/-- Environment of one `update_manifest` call: whether the manifest side-path
lock can be acquired within its 5-second timeout, the decoder from the raw
manifest blob to a parsed manifest (`load_manifest`), the encoder back (the
serde re-encode and `DataBlob::encode` steps, each behind a `?`, collapsed
into one fallible step), and whether the final atomic `replace_file` succeeds.
Raw blobs and parsed manifests are opaque naturals. -/
structure UpdateEnv where
  lockOk : Bool
  decode : Nat → Option Nat
  encode : Nat → Option Nat
  writeOk : Bool

/-- Observable result of one `update_manifest` call: the outcome, the manifest
file afterwards (`Option.none` when the file does not exist), and how many
times the manifest file was written to. -/
structure UpdateResult where
  outcome : Except String Unit
  file : Option Nat
  writes : Nat

/-- Embeds `DataStore::update_manifest`: acquire the manifest lock, load and
parse the current manifest blob, apply the mutation of the caller in memory,
re-encode, and atomically replace the file once at the very end. Every failure
before the replace leaves the file untouched; the replace itself is atomic, so
its failure also leaves the old content in place. -/
def update_manifest (env : UpdateEnv) (file : Option Nat) (update_fn : Nat → Nat) :
    UpdateResult :=
  if env.lockOk then
    match file with
    | Option.none =>
      { outcome := Except.error "unable to load blob", file := file, writes := 0 }
    | some raw =>
      match env.decode raw with
      | Option.none =>
        { outcome := Except.error "unable to parse manifest", file := file, writes := 0 }
      | some manifest =>
        match env.encode (update_fn manifest) with
        | Option.none =>
          { outcome := Except.error "unable to encode manifest", file := file, writes := 0 }
        | some raw2 =>
          if env.writeOk then
            { outcome := Except.ok (), file := some raw2, writes := 1 }
          else
            { outcome := Except.error "replace_file failed", file := file, writes := 1 }
  else
    { outcome := Except.error "unable to acquire manifest lock", file := file, writes := 0 }

/-- Concrete environment for the C9 witness: the lock is free, blob 1 decodes
to manifest 10, manifest 11 encodes to blob 2, and the replace succeeds. -/
def envW : UpdateEnv :=
  { lockOk := true,
    decode := fun r => if r = 1 then some 10 else Option.none,
    encode := fun m => if m = 11 then some 2 else Option.none,
    writeOk := true }

end Manifest

namespace Deletion

/-- One snapshot directory of a backup group: its timestamp (the directory
name, unique within the group) and whether its `.protected` marker file
exists. The protection test is modelled from the spec: `is_protected` is the
existence of the `.protected` marker. -/
structure Snapshot where
  time : Int
  is_protected : Bool
deriving DecidableEq

/-- State of the directory of one backup group as the deletion primitives see it:
the snapshot directories present (modelled from the spec of `list_backups`:
the snapshot subdirectories of the group) and whether the group directory itself
exists. Directory and manifest locks are modelled as available (uncontended
deletion) and filesystem removal as succeeding. -/
structure GroupState where
  snapshots : List Snapshot
  groupDirExists : Bool
deriving DecidableEq

/-- The snapshot directories of a group carry pairwise distinct timestamps:
the invariant any real directory listing satisfies. -/
abbrev TimesNodup (l : List Snapshot) : Prop :=
  l.Pairwise fun a b => a.time ≠ b.time

/-- Embeds `DataStore::remove_backup_dir` for the snapshot with the given
timestamp: take the snapshot and manifest locks when `force` is unset (always
available here), refuse if the `.protected` marker exists, otherwise remove
the snapshot directory. Returns the outcome and the group state afterwards;
a missing snapshot directory fails the removal. -/
def remove_backup_dir (st : GroupState) (t : Int) (_force : Bool) :
    Except String Unit × GroupState :=
  match st.snapshots.find? fun s => s.time == t with
  | Option.none => (Except.error "removing backup snapshot failed", st)
  | some snap =>
    if snap.is_protected then
      (Except.error "cannot remove protected snapshot", st)
    else
      (Except.ok (),
       { st with snapshots := st.snapshots.filter fun s => !(s.time == t) })

/-- Embeds the snapshot loop of `DataStore::remove_backup_group`: iterate the
listed snapshots; a protected one clears `removed_all` and is kept; an
unprotected one is removed through `remove_backup_dir(.., force := false)`,
whose error would propagate. -/
def removeSnapshots (st : GroupState) (removed_all : Bool) :
    List Snapshot → Except String (Bool × GroupState)
  | [] => Except.ok (removed_all, st)
  | snap :: rest =>
    if snap.is_protected then
      removeSnapshots st false rest
    else
      match remove_backup_dir st snap.time false with
      | (Except.ok _, st2) => removeSnapshots st2 removed_all rest
      | (Except.error e, _) => Except.error e

/-- Embeds `DataStore::remove_backup_group`: lock the group directory (which
fails when it does not exist), delete all unprotected snapshots, then remove
the group directory iff `removed_all` survived. Returns `removed_all` and the
state afterwards. -/
def remove_backup_group (st : GroupState) : Except String (Bool × GroupState) :=
  if st.groupDirExists then
    match removeSnapshots st true st.snapshots with
    | Except.ok (removed_all, st2) =>
      if removed_all then
        Except.ok (removed_all, { st2 with groupDirExists := false })
      else
        Except.ok (removed_all, st2)
    | Except.error e => Except.error e
  else
    Except.error "backup group does not exist"

/-- Concrete group for the C1 witness: a protected snapshot at time 1 and an
unprotected one at time 2, with the group directory present. -/
def stW : GroupState :=
  { snapshots := [{ time := 1, is_protected := true },
                  { time := 2, is_protected := false }],
    groupDirExists := true }

end Deletion

namespace GCRun

/-- C3: the claim states that `garbage_collection` releases the chunk-store
exclusive lock before the mark phase. In the source the guard is a named
binding dropped only at the end of the block: the single release of
the exclusive lock in the trace lies strictly after the mark phase, refuting the claimed
order. -/
theorem C3_counterexample :
    eventPos GCEvent.phase1Mark < eventPos GCEvent.releaseExclusiveLock ∧
    gcEventTrace.count GCEvent.releaseExclusiveLock = 1 := by
  decide

/-- C3 (amended): `garbage_collection` acquires the chunk-store exclusive lock
once, before phase 1, and holds it across mark and sweep; the guard is released
only at the end of the run, just before the GC mutex itself. -/
theorem C3_amended :
    eventPos GCEvent.acquireExclusiveLock < eventPos GCEvent.phase1Mark ∧
    eventPos GCEvent.phase1Mark < eventPos GCEvent.phase2Sweep ∧
    eventPos GCEvent.phase2Sweep < eventPos GCEvent.releaseExclusiveLock ∧
    eventPos GCEvent.releaseExclusiveLock < eventPos GCEvent.releaseGCMutex := by
  decide

end GCRun

namespace GCLock

/-- C4: GC is serialized by a non-blocking try-lock on the per-datastore GC
mutex: a second concurrent start on a held mutex fails immediately with the
already-running error, a start on a free mutex succeeds and holds the mutex,
and `garbage_collection_running` returns true exactly while the mutex is held
(false before and after). -/
theorem C4_gc_serialized (m : GCMutex) :
    garbage_collection_running m = m.locked ∧
    garbage_collection_start { locked := true } =
      Except.error "Start GC failed - (already running/locked)" ∧
    garbage_collection_start { locked := false } = Except.ok { locked := true } ∧
    garbage_collection_running { locked := true } = true ∧
    garbage_collection_running (garbage_collection_finish m) = false := by
  obtain ⟨l⟩ := m
  cases l <;> simp [garbage_collection_running, garbage_collection_start,
    garbage_collection_finish, tryLock]

end GCLock

namespace GCStatus

/-- C5: the claim states that every failure on the status-persisting path is
ignored and GC still returns success. It is false at the concrete run where
serialization succeeds but the backup-user lookup fails: the `?` propagates
the error and `garbage_collection` returns it. -/
theorem C5_counterexample :
    gc_finalize { serializeOk := true, backupUserOk := false, writeOk := true } =
      Except.error "unable to resolve backup user" := rfl

/-- C5 (amended): persisting `.gc-status` is best effort with one exception.
A serialization failure is ignored (no write attempted, GC succeeds and
publishes the status), a failure of the atomic file replace is ignored
(GC succeeds and publishes), but a failure of the backup-user lookup made to
build the file-creation options propagates as a GC error. -/
theorem C5_amended (writeOk : Bool) (bu : Bool) :
    gc_finalize { serializeOk := false, backupUserOk := bu, writeOk := writeOk } =
      Except.ok { statusFileWritten := false, publishedLastGC := true } ∧
    gc_finalize { serializeOk := true, backupUserOk := true, writeOk := writeOk } =
      Except.ok { statusFileWritten := writeOk, publishedLastGC := true } ∧
    gc_finalize { serializeOk := true, backupUserOk := false, writeOk := writeOk } =
      Except.error "unable to resolve backup user" := by
  cases writeOk <;> cases bu <;> exact ⟨rfl, rfl, rfl⟩

end GCStatus

namespace OwnerCheck

/-- C10: the ownership check is asymmetric. `check_backup_owner owner auth_id`
succeeds iff `auth_id` equals `owner`, or `owner` is an API token and `auth_id`
equals the user of that token; in particular when the owner is a plain user and
`auth_id` is a token belonging to that same user, the check fails and
`owns_backup` reports false. -/
theorem C10_owner_check_asymmetric (owner auth_id : Authid) (u t : Nat) :
    (check_backup_owner owner auth_id = Except.ok () ↔
      (auth_id = owner ∨ (is_token owner = true ∧ auth_id = from_user owner.user))) ∧
    check_backup_owner { user := u, tokenname := none } { user := u, tokenname := some t } =
      Except.error "backup owner check failed" ∧
    owns_backup (some { user := u, tokenname := none }) { user := u, tokenname := some t } =
      Except.ok false := by
  refine ⟨?_, ?_, ?_⟩
  · simp only [check_backup_owner]
    split
    · rename_i h
      simp only [Bool.or_eq_true, Bool.and_eq_true, beq_iff_eq] at h
      simp only [true_iff]
      rcases h with h | ⟨ht, he⟩
      · exact Or.inl h.symm
      · exact Or.inr ⟨ht, he.symm⟩
    · rename_i h
      simp only [Bool.or_eq_true, Bool.and_eq_true, beq_iff_eq, not_or, not_and] at h
      constructor
      · intro hc
        exact absurd hc (by simp)
      · intro hc
        rcases hc with hc | ⟨ht, he⟩
        · exact absurd hc.symm h.1
        · exact absurd he.symm (h.2 ht)
  · simp [check_backup_owner, is_token]
  · simp [owns_backup, check_backup_owner, is_token]

end OwnerCheck

namespace Cache

/-- C6: a cached instance is reused iff its generation matches and the call is
within 60 seconds of `last_update`; hence a lookup within 60 seconds of the
lookup that opened the store, at the same generation, shares the same inner
state, and after a generation bump it does not. -/
theorem C6_cache_reuse (entry : CacheEntry) (generation gen2 : Nat) (now tA tB : Int)
    (freshId f1 f2 : Nat)
    (hfresh : freshId ≠ entry.storeId)
    (hwin : tB < tA + 60)
    (hgen : gen2 ≠ generation)
    (hf2 : f2 ≠ f1) :
    ((lookup_datastore (some entry) generation now freshId).1 = entry.storeId ↔
      (entry.lastGeneration = generation ∧ now < entry.lastUpdate + 60)) ∧
    lookup_datastore (some (lookup_datastore none generation tA f1).2) generation tB f2 =
      ((lookup_datastore none generation tA f1).1,
       (lookup_datastore none generation tA f1).2) ∧
    (lookup_datastore (some (lookup_datastore none generation tA f1).2) gen2 tB f2).1 ≠
      (lookup_datastore none generation tA f1).1 := by
  refine ⟨?_, ?_, ?_⟩
  · show (if entry.lastGeneration == generation && decide (now < entry.lastUpdate + 60) then
          (entry.storeId, entry)
        else
          (freshId, { lastGeneration := generation, lastUpdate := now, storeId := freshId })).1
        = entry.storeId ↔
      (entry.lastGeneration = generation ∧ now < entry.lastUpdate + 60)
    by_cases hc : entry.lastGeneration = generation ∧ now < entry.lastUpdate + 60
    · rw [if_pos (by simp [hc.1, hc.2])]
      simp [hc]
    · rw [if_neg (by simpa using hc)]
      simp [hfresh, hc]
  · show lookup_datastore
        (some { lastGeneration := generation, lastUpdate := tA, storeId := f1 })
        generation tB f2 =
      (f1, { lastGeneration := generation, lastUpdate := tA, storeId := f1 })
    simp [lookup_datastore, hwin]
  · show (lookup_datastore
        (some { lastGeneration := generation, lastUpdate := tA, storeId := f1 })
        gen2 tB f2).1 ≠ f1
    have hg : generation ≠ gen2 := Ne.symm hgen
    simp [lookup_datastore, hg, hf2]

/-- C6 witness: a concrete cache entry at generation 0 opened at time 0, looked
up at time 10, with a second lookup at time 50 sharing the inner state and a
lookup after a generation bump not sharing it. -/
theorem C6_cache_reuse_witness :
    ((lookup_datastore (some { lastGeneration := 0, lastUpdate := 0, storeId := 5 })
        0 10 7).1 = 5 ↔ ((0 : Nat) = 0 ∧ (10 : Int) < 0 + 60)) ∧
    lookup_datastore (some (lookup_datastore none 0 100 1).2) 0 150 2 =
      ((lookup_datastore none 0 100 1).1, (lookup_datastore none 0 100 1).2) ∧
    (lookup_datastore (some (lookup_datastore none 0 100 1).2) 1 150 2).1 ≠
      (lookup_datastore none 0 100 1).1 :=
  C6_cache_reuse { lastGeneration := 0, lastUpdate := 0, storeId := 5 } 0 1 10 100 150 7 1 2
    (by decide) (by decide) (by decide) (by decide)

end Cache

namespace Mark

/-- The bad-sidecar loop makes exactly one fail-tolerant touch per requested
index and never errors. -/
theorem touchBadSidecars_ok (badPresent : Digest → Nat → Bool) (d : Digest)
    (l : List Nat) :
    touchBadSidecars badPresent d l =
      Except.ok (l.map fun n => MarkCall.touchBad d n false) := by
  induction l with
  | nil => rfl
  | cons n rest ih =>
    cases hb : badPresent d n <;>
      simp only [touchBadSidecars, cond_touch_path, hb, if_true, if_false,
        Bool.false_eq_true, ih] <;> rfl

/-- C2: the mark step calls `cond_touch_chunk(digest, fail_if_missing := false)`
at every index position; whenever that call reports the chunk missing, the
digest is warned about and the ten sidecar paths `<digest>.<n>.bad` for
`n = 0..9` are touched with `cond_touch_path(.., false)`, and the loop
continues — the whole loop returns successfully for every index and every
population of the chunk store, so a missing chunk never aborts GC. -/
theorem C2_mark_tolerates_missing (present : Digest → Bool)
    (badPresent : Digest → Nat → Bool) (index : List Digest) :
    index_mark_used_chunks present badPresent index =
      Except.ok
        ((index.map fun d =>
            if present d then [MarkCall.touchChunk d false]
            else MarkCall.touchChunk d false ::
              ((List.range 10).map fun n => MarkCall.touchBad d n false)).flatten,
         index.filter fun d => !present d) := by
  induction index with
  | nil => rfl
  | cons d rest ih =>
    cases hp : present d <;>
      simp only [index_mark_used_chunks, cond_touch_chunk, hp, if_true, if_false,
        Bool.false_eq_true, ih, touchBadSidecars_ok, List.map_cons, List.flatten_cons,
        List.filter_cons, Bool.not_false, Bool.not_true] <;> rfl

end Mark

namespace Owner

/-- Taking the longest `p`-prefix of `cs ++ [x]` yields `cs` when `p` holds on
all of `cs` and fails at `x`. -/
theorem takeWhile_append_last (p : Char → Bool) (cs : List Char) (x : Char)
    (hall : ∀ c ∈ cs, p c = true) (hx : p x = false) :
    (cs ++ [x]).takeWhile p = cs := by
  induction cs with
  | nil => simp [List.takeWhile, hx]
  | cons c rest ih =>
    have hc := hall c (List.mem_cons_self c rest)
    have hrest : ∀ y ∈ rest, p y = true := fun y hy => hall y (List.mem_cons_of_mem c hy)
    simp [List.takeWhile, hc, ih hrest]

/-- Dropping a whitespace prefix does nothing on a whitespace-free list. -/
theorem dropWhile_of_no_whitespace (cs : List Char)
    (hall : ∀ c ∈ cs, c.isWhitespace = false) :
    cs.dropWhile Char.isWhitespace = cs := by
  cases cs with
  | nil => rfl
  | cons c rest =>
    have hc := hall c (List.mem_cons_self c rest)
    simp [List.dropWhile, hc]

/-- C7: owner persistence. After a forced `set_owner` the owner file holds the
identity followed by a newline and `get_owner` returns exactly that identity
(stripping the newline); a non-forced `set_owner` fails whenever an owner file
already exists and leaves its content unchanged. -/
theorem C7_owner_persistence (ownerFile : Option (List Char)) (a : Authid)
    (hwf : authidValid a.chars = true) :
    (set_owner ownerFile a true).1 = Except.ok () ∧
    (set_owner ownerFile a true).2 = some (a.chars ++ ['\n']) ∧
    get_owner (set_owner ownerFile a true).2 = Except.ok a ∧
    (∀ content, ownerFile = some content →
      set_owner ownerFile a false = (Except.error "unable to create owner file", some content)) := by
  have hno : ∀ c ∈ a.chars, c.isWhitespace = false := by
    intro c hc
    have := (List.all_eq_true.mp (Bool.and_elim_right hwf)) c hc
    simpa using this
  have hnl : ∀ c ∈ a.chars, (c != '\n') = true := by
    intro c hc
    have hcw := hno c hc
    by_contra hne
    have : c = '\n' := by simpa using hne
    rw [this] at hcw
    exact absurd hcw (by decide)
  have hfirst : firstLine (a.chars ++ ['\n']) = a.chars ++ ['\n'] := by
    unfold firstLine
    rw [takeWhile_append_last _ _ _ hnl (by decide)]
    simp
  have htrim : trimEnd (a.chars ++ ['\n']) = a.chars := by
    unfold trimEnd
    rw [List.reverse_append]
    simp only [List.reverse_cons, List.reverse_nil, List.nil_append, List.singleton_append]
    rw [List.dropWhile_cons]
    simp only [Char.isWhitespace, if_pos (by decide : ('\n'.isWhitespace) = true)]
    rw [dropWhile_of_no_whitespace _ (by
      intro c hc
      exact hno c (List.mem_reverse.mp hc))]
    exact List.reverse_reverse a.chars
  refine ⟨by simp [set_owner], by simp [set_owner], ?_, ?_⟩
  · show get_owner (some (a.chars ++ ['\n'])) = Except.ok a
    simp only [get_owner]
    rw [hfirst, htrim]
    unfold authid_parse
    rw [if_pos hwf]
  · intro content hcontent
    subst hcontent
    simp [set_owner]

/-- C7 witness: a concrete owner file round trip at the identity `u@p`, and a
non-forced rewrite attempt over an existing file failing. -/
theorem C7_owner_persistence_witness :
    get_owner (set_owner (some ['x', '\n']) { chars := ['u', '@', 'p'] } true).2 =
      Except.ok { chars := ['u', '@', 'p'] } ∧
    set_owner (some ['x', '\n']) { chars := ['u', '@', 'p'] } false =
      (Except.error "unable to create owner file", some ['x', '\n']) :=
  ⟨(C7_owner_persistence (some ['x', '\n']) { chars := ['u', '@', 'p'] } (by decide)).2.2.1,
   (C7_owner_persistence (some ['x', '\n']) { chars := ['u', '@', 'p'] } (by decide)).2.2.2
     ['x', '\n'] rfl⟩

end Owner

namespace ChunkOrdering

/-- Keeping only the first components, building keyed pairs for the non-skipped
entries is the same as filtering the skipped entries away. -/
theorem filterMap_keyed_fst (skip : Digest → Bool) (key : Digest → Nat)
    (l : List (Nat × Digest)) :
    (l.filterMap fun pd =>
        if skip pd.2 then Option.none else some (pd.1, key pd.2)).map Prod.fst =
      (l.filter fun pd => !skip pd.2).map Prod.fst := by
  induction l with
  | nil => rfl
  | cons pd rest ih =>
    cases hs : skip pd.2 <;> simp [List.filterMap_cons, List.filter_cons, hs, ih]

/-- C8: under `ChunkOrder::None` the non-skipped positions come out in the
original index order; under `ChunkOrder::Inode` the output is a permutation
of the keyed non-skipped positions, is sorted by non-decreasing inode key, and
an output key equals `u64::MAX` exactly for the chunks whose stat failed —
so (keys of real inodes being smaller) the un-stattable chunks sit at the end. -/
theorem C8_chunk_order (stat : Digest → Option Nat) (index : List Digest)
    (skip_chunk : Digest → Bool)
    (hstat : ∀ d n, stat d = some n → n < u64MAX) :
    (get_chunks_in_order ChunkOrder.none stat index skip_chunk).map Prod.fst =
      (index.enum.filter fun pd => !skip_chunk pd.2).map Prod.fst ∧
    (get_chunks_in_order ChunkOrder.inode stat index skip_chunk).Perm
      (index.enum.filterMap fun pd =>
        if skip_chunk pd.2 then Option.none
        else some (pd.1, inoKey ChunkOrder.inode stat pd.2)) ∧
    (get_chunks_in_order ChunkOrder.inode stat index skip_chunk).Pairwise
      (fun a b => a.2 ≤ b.2) ∧
    ∀ pk ∈ get_chunks_in_order ChunkOrder.inode stat index skip_chunk,
      (pk.2 = u64MAX ↔
        ∃ d, index[pk.1]? = some d ∧ skip_chunk d = false ∧ stat d = Option.none) := by
  refine ⟨?_, ?_, ?_, ?_⟩
  · exact filterMap_keyed_fst skip_chunk
      (fun d => inoKey ChunkOrder.none stat d) index.enum
  · exact List.mergeSort_perm _ _
  · have hs := @List.sorted_mergeSort (Nat × Nat)
      (fun a b => decide (a.2 ≤ b.2))
      (fun a b c hab hbc => by
        simp only [decide_eq_true_eq] at hab hbc ⊢
        exact Nat.le_trans hab hbc)
      (fun a b => by
        simp only [Bool.or_eq_true, decide_eq_true_eq]
        exact Nat.le_total a.2 b.2)
      (index.enum.filterMap fun pd =>
        if skip_chunk pd.2 then Option.none
        else some (pd.1, inoKey ChunkOrder.inode stat pd.2))
    exact hs.imp fun h => by simpa using h
  · rintro ⟨p1, p2⟩ hpk
    have hmem : (p1, p2) ∈ index.enum.filterMap fun pd =>
        if skip_chunk pd.2 then Option.none
        else some (pd.1, inoKey ChunkOrder.inode stat pd.2) :=
      (List.mergeSort_perm _ _).mem_iff.mp hpk
    obtain ⟨pd, hpd, hf⟩ := List.mem_filterMap.mp hmem
    by_cases hsk : skip_chunk pd.2 = true
    · rw [if_pos hsk] at hf
      exact absurd hf (by simp)
    · rw [if_neg hsk] at hf
      have h12 := Option.some.inj hf
      rw [Prod.mk.injEq] at h12
      obtain ⟨h1, h2⟩ := h12
      have hget : index[p1]? = some pd.2 := by
        rw [← h1]
        exact List.mem_enum_iff_getElem?.mp hpd
      constructor
      · intro hmax
        refine ⟨pd.2, hget, by simpa using hsk, ?_⟩
        rcases hsc : stat pd.2 with _ | n
        · rfl
        · exfalso
          have hkey : inoKey ChunkOrder.inode stat pd.2 = n := by
            simp [inoKey, hsc]
          have hmax2 : p2 = u64MAX := hmax
          have hlt := hstat pd.2 n hsc
          rw [hkey] at h2
          rw [h2, hmax2] at hlt
          exact Nat.lt_irrefl _ hlt
      · rintro ⟨d, hgetd, hdskip, hdstat⟩
        rw [hget] at hgetd
        have hd : pd.2 = d := Option.some.inj hgetd
        show p2 = u64MAX
        rw [← h2]
        simp [inoKey, hd, hdstat]

/-- C8 witness: the ordering contract evaluated on a four-position index with
one skipped position and one un-stattable chunk. -/
theorem C8_chunk_order_witness :
    (get_chunks_in_order ChunkOrder.none statW indexW skipW).map Prod.fst =
      (indexW.enum.filter fun pd => !skipW pd.2).map Prod.fst ∧
    (get_chunks_in_order ChunkOrder.inode statW indexW skipW).Perm
      (indexW.enum.filterMap fun pd =>
        if skipW pd.2 then Option.none
        else some (pd.1, inoKey ChunkOrder.inode statW pd.2)) ∧
    (get_chunks_in_order ChunkOrder.inode statW indexW skipW).Pairwise
      (fun a b => a.2 ≤ b.2) ∧
    ∀ pk ∈ get_chunks_in_order ChunkOrder.inode statW indexW skipW,
      (pk.2 = u64MAX ↔
        ∃ d, indexW[pk.1]? = some d ∧ skipW d = false ∧ statW d = Option.none) :=
  C8_chunk_order statW indexW skipW (by
    intro d n h
    unfold statW at h
    split at h
    · exact Option.noConfusion h
    · rw [(Option.some.inj h).symm]
      decide)

end ChunkOrdering

namespace Manifest

/-- C9: `update_manifest` is atomic on error. A lock, load or parse failure
returns an error with the on-disk manifest unchanged and no write performed;
the file is written at most once overall, a run with no write leaves the file
unchanged, and the successful path performs exactly the one atomic replace at
the end, installing the re-encoded mutated manifest. -/
theorem C9_update_manifest_atomic (env : UpdateEnv) (file : Option Nat)
    (update_fn : Nat → Nat) :
    (env.lockOk = false →
      update_manifest env file update_fn =
        { outcome := Except.error "unable to acquire manifest lock", file := file,
          writes := 0 }) ∧
    (env.lockOk = true → file = Option.none →
      update_manifest env file update_fn =
        { outcome := Except.error "unable to load blob", file := file, writes := 0 }) ∧
    (∀ raw, env.lockOk = true → file = some raw → env.decode raw = Option.none →
      update_manifest env file update_fn =
        { outcome := Except.error "unable to parse manifest", file := file,
          writes := 0 }) ∧
    (update_manifest env file update_fn).writes ≤ 1 ∧
    ((update_manifest env file update_fn).writes = 0 →
      (update_manifest env file update_fn).file = file) ∧
    (∀ raw m raw2, env.lockOk = true → file = some raw → env.decode raw = some m →
      env.encode (update_fn m) = some raw2 → env.writeOk = true →
      update_manifest env file update_fn =
        { outcome := Except.ok (), file := some raw2, writes := 1 }) := by
  refine ⟨?_, ?_, ?_, ?_, ?_, ?_⟩
  · intro h
    simp [update_manifest, h]
  · intro hl hf
    subst hf
    simp [update_manifest, hl]
  · intro raw hl hf hd
    subst hf
    simp [update_manifest, hl, hd]
  · unfold update_manifest
    split
    · split
      · simp
      · split
        · simp
        · split
          · simp
          · split <;> simp
    · simp
  · unfold update_manifest
    split
    · split
      · simp
      · split
        · simp
        · split
          · simp
          · split <;> simp
    · simp
  · intro raw m raw2 hl hf hd he hw
    subst hf
    simp [update_manifest, hl, hd, he, hw]

/-- C9 witness: a successful update over blob 1 with the increment mutation
writes exactly once and installs blob 2, and a locked-out call leaves the file
unchanged with no write. -/
theorem C9_update_manifest_atomic_witness :
    update_manifest envW (some 1) (fun m => m + 1) =
      { outcome := Except.ok (), file := some 2, writes := 1 } ∧
    update_manifest { envW with lockOk := false } (some 1) (fun m => m + 1) =
      { outcome := Except.error "unable to acquire manifest lock", file := some 1,
        writes := 0 } :=
  ⟨(C9_update_manifest_atomic envW (some 1) (fun m => m + 1)).2.2.2.2.2
      1 10 2 rfl rfl rfl rfl rfl,
   (C9_update_manifest_atomic { envW with lockOk := false } (some 1)
      (fun m => m + 1)).1 rfl⟩

end Manifest

namespace Deletion

/-- Under distinct timestamps, searching the timestamp of a member finds exactly
that member. -/
theorem find?_time_eq (l : List Snapshot) (snap : Snapshot)
    (hnd : TimesNodup l) (hmem : snap ∈ l) :
    (l.find? fun s => s.time == snap.time) = some snap := by
  induction l with
  | nil => cases hmem
  | cons a rest ih =>
    rcases List.mem_cons.mp hmem with h | h
    · subst h
      exact List.find?_cons_of_pos rest (by simp)
    · have hne : a.time ≠ snap.time := (List.pairwise_cons.mp hnd).1 snap h
      rw [List.find?_cons_of_neg rest (by simpa using hne)]
      exact ih (List.pairwise_cons.mp hnd).2 h

/-- Removing an unprotected member snapshot succeeds and deletes exactly its
directory. -/
theorem remove_backup_dir_unprotected (st : GroupState) (snap : Snapshot)
    (hnd : TimesNodup st.snapshots) (hmem : snap ∈ st.snapshots)
    (hp : snap.is_protected = false) :
    remove_backup_dir st snap.time false =
      (Except.ok (),
       { st with snapshots := st.snapshots.filter fun s => !(s.time == snap.time) }) := by
  unfold remove_backup_dir
  rw [find?_time_eq st.snapshots snap hnd hmem]
  simp [hp]

/-- Removing a protected member snapshot fails with the protection error and
changes nothing. -/
theorem remove_backup_dir_protected (st : GroupState) (snap : Snapshot)
    (hnd : TimesNodup st.snapshots) (hmem : snap ∈ st.snapshots)
    (hp : snap.is_protected = true) :
    remove_backup_dir st snap.time false =
      (Except.error "cannot remove protected snapshot", st) := by
  unfold remove_backup_dir
  rw [find?_time_eq st.snapshots snap hnd hmem]
  simp [hp]

/-- The snapshot loop, run over any duplicate-free selection of the
snapshots of the group, succeeds, reports whether the flag survived with no protected
snapshot seen, and keeps exactly the snapshots that are protected or were not
iterated. -/
theorem removeSnapshots_spec (l : List Snapshot) :
    ∀ (st : GroupState) (flag : Bool),
      TimesNodup st.snapshots →
      l.Sublist st.snapshots →
      removeSnapshots st flag l =
        Except.ok (flag && l.all (fun s => !s.is_protected),
          { st with snapshots :=
              st.snapshots.filter fun s => s.is_protected || !(decide (s ∈ l)) }) := by
  induction l with
  | nil =>
    intro st flag hnd hsub
    simp [removeSnapshots]
  | cons snap rest ih =>
    intro st flag hnd hsub
    have hmem : snap ∈ st.snapshots := hsub.subset (List.mem_cons_self _ _)
    have hrest_sub : rest.Sublist st.snapshots :=
      (List.sublist_cons_self snap rest).trans hsub
    have hpl : List.Pairwise (fun a b => a.time ≠ b.time) (snap :: rest) :=
      List.Pairwise.sublist hsub hnd
    have hrest_times : ∀ s ∈ rest, s.time ≠ snap.time := by
      intro s hs
      exact fun h => (List.pairwise_cons.mp hpl).1 s hs h.symm
    have htimes_all : ∀ s ∈ st.snapshots, s ≠ snap → s.time ≠ snap.time := by
      intro s hs hne
      exact List.Pairwise.forall (fun a b h => Ne.symm h) hnd hs hmem hne
    cases hp : snap.is_protected
    · -- unprotected head: remove it, recurse on the filtered state
      have hnd2 : TimesNodup (st.snapshots.filter fun s => !(s.time == snap.time)) :=
        List.Pairwise.sublist (List.filter_sublist st.snapshots) hnd
      have hsub2 : rest.Sublist (st.snapshots.filter fun s => !(s.time == snap.time)) := by
        have hkeep : List.filter (fun s => !(s.time == snap.time)) rest = rest :=
          List.filter_eq_self.mpr (by
            intro s hs
            simpa using hrest_times s hs)
        have h2 := List.Sublist.filter (fun s => !(s.time == snap.time)) hrest_sub
        rwa [hkeep] at h2
      have hstep : removeSnapshots st flag (snap :: rest) =
          removeSnapshots
            { st with snapshots := st.snapshots.filter fun s => !(s.time == snap.time) }
            flag rest := by
        simp only [removeSnapshots, hp, Bool.false_eq_true, if_false]
        rw [remove_backup_dir_unprotected st snap hnd hmem hp]
      rw [hstep, ih _ flag hnd2 hsub2]
      simp only [Except.ok.injEq, Prod.mk.injEq, GroupState.mk.injEq]
      refine ⟨?_, ?_, trivial⟩
      · simp [hp]
      · rw [List.filter_filter]
        refine List.filter_congr ?_
        intro s hs
        by_cases hse : s = snap
        · subst hse
          simp [hp]
        · have hstime : s.time ≠ snap.time := htimes_all s hs hse
          simp [hstime, hse]
    · -- protected head: clear the flag, keep the snapshot, recurse
      have hstep : removeSnapshots st flag (snap :: rest) =
          removeSnapshots st false rest := by
        simp only [removeSnapshots, hp, if_true]
      rw [hstep, ih st false hnd hrest_sub]
      simp only [Except.ok.injEq, Prod.mk.injEq, GroupState.mk.injEq]
      refine ⟨?_, ?_, trivial⟩
      · simp [hp]
      · refine List.filter_congr ?_
        intro s hs
        by_cases hse : s = snap
        · subst hse
          simp [hp]
        · simp [hse]

/-- C1: protection is honored by both deletion primitives. A protected
snapshot makes `remove_backup_dir(.., force := false)` fail with no change;
`remove_backup_group` deletes exactly the unprotected snapshots, removes the
group directory iff no protected snapshot remains, and returns true iff every
snapshot (and the group directory) was removed. -/
theorem C1_protection_honored (st : GroupState)
    (hdir : st.groupDirExists = true) (hnd : TimesNodup st.snapshots) :
    (∀ snap ∈ st.snapshots, snap.is_protected = true →
      remove_backup_dir st snap.time false =
        (Except.error "cannot remove protected snapshot", st)) ∧
    (∃ st2, remove_backup_group st =
        Except.ok (st.snapshots.all (fun s => !s.is_protected), st2) ∧
      st2.snapshots = st.snapshots.filter (fun s => s.is_protected) ∧
      (st2.groupDirExists = false ↔ (st.snapshots.all fun s => !s.is_protected) = true) ∧
      ((st.snapshots.all fun s => !s.is_protected) = true ↔
        (st2.snapshots = [] ∧ st2.groupDirExists = false))) := by
  constructor
  · intro snap hmem hp
    exact remove_backup_dir_protected st snap hnd hmem hp
  · have hloop := removeSnapshots_spec st.snapshots st true hnd (List.Sublist.refl _)
    have hfilter : (st.snapshots.filter fun s => s.is_protected || !(decide (s ∈ st.snapshots)))
        = st.snapshots.filter fun s => s.is_protected := by
      refine List.filter_congr ?_
      intro s hs
      simp [hs]
    rw [hfilter] at hloop
    by_cases hall : (st.snapshots.all fun s => !s.is_protected) = true
    · refine ⟨{ snapshots := st.snapshots.filter (fun s => s.is_protected),
                groupDirExists := false }, ?_, rfl, ?_, ?_⟩
      · simp only [remove_backup_group, hdir, if_true]
        rw [hloop]
        simp [hall]
      · simp [hall]
      · have hempty : st.snapshots.filter (fun s => s.is_protected) = [] := by
          rw [List.filter_eq_nil_iff]
          intro s hs
          have := (List.all_eq_true.mp hall) s hs
          simp at this
          simp [this]
        simp [hall, hempty]
    · have hallf : (st.snapshots.all fun s => !s.is_protected) = false := by
        simpa using hall
      refine ⟨{ st with snapshots := st.snapshots.filter fun s => s.is_protected },
              ?_, rfl, ?_, ?_⟩
      · simp only [remove_backup_group, hdir, if_true]
        rw [hloop]
        simp [hallf, hdir]
      · simp [hallf, hdir]
      · simp [hallf, hdir]

/-- C1 witness: deleting the protected snapshot of the concrete group fails
with no change, and removing the whole group deletes only the unprotected
snapshot, keeps the group directory, and returns false. -/
theorem C1_protection_honored_witness :
    remove_backup_dir stW 1 false =
      (Except.error "cannot remove protected snapshot", stW) ∧
    remove_backup_group stW =
      Except.ok (false, { snapshots := [{ time := 1, is_protected := true }],
                          groupDirExists := true }) := by
  constructor
  · exact (C1_protection_honored stW rfl (by decide)).1
      { time := 1, is_protected := true } (by decide) rfl
  · obtain ⟨st2, hrun, hsnaps, hdir2, hiff⟩ := (C1_protection_honored stW rfl (by decide)).2
    have hall : (stW.snapshots.all fun s => !s.is_protected) = false := rfl
    have hd2 : st2.groupDirExists = true := by
      rcases hb : st2.groupDirExists
      · exfalso
        have hcontra := hdir2.mp hb
        rw [hall] at hcontra
        exact absurd hcontra (by decide)
      · rfl
    obtain ⟨ss, dd⟩ := st2
    simp only at hsnaps hd2
    subst hsnaps
    subst hd2
    rw [hrun, hall]
    rfl

end Deletion

end Spec2Proof
